import Mathlib

/-
Verification development for the CodeHawk-Binary relational-analysis and
AST-lowering core.  Python classes are shallowly embedded as Lean structures
and pure functions; lazily cached properties become pure functions of the
object state; Python exceptions become `Except` results.  Hex address
strings that the source immediately converts with `int(addr, 16)` / `hex`
are represented by their numeric value where only the numeric value is
used; where the source manipulates the strings themselves (for example
`BasicBlock.lastaddr`, which sorts address strings), strings are kept.
The md5 hash is represented by an arbitrary function of the hashed byte
sequence, passed as an explicit parameter.
-/

/-! Python string comparison: `sorted` on `str` compares lexicographically
by code point.  `lexLe` is that comparison on the underlying character
lists and `pySorted` is a stable ascending sort, the behaviour of Python's
`sorted`. -/

def lexLe : List Char → List Char → Bool
  | [], _ => true
  | _ :: _, [] => false
  | a :: as, b :: bs =>
    if a.toNat < b.toNat then true
    else if b.toNat < a.toNat then false
    else lexLe as bs

def pyStrLe (a b : String) : Bool :=
  lexLe a.data b.data

theorem lexLe_refl (l : List Char) : lexLe l l = true := by
  induction l with
  | nil => rfl
  | cons a as ih => simp [lexLe, ih]

theorem lexLe_cons_iff (a b : Char) (as bs : List Char) :
    lexLe (a :: as) (b :: bs) = true ↔
      a.toNat < b.toNat ∨ (a.toNat = b.toNat ∧ lexLe as bs = true) := by
  simp only [lexLe]
  by_cases h1 : a.toNat < b.toNat
  · simp [h1]
  · by_cases h2 : b.toNat < a.toNat
    · rw [if_neg h1, if_pos h2]
      constructor
      · intro hcon
        exact absurd hcon (by decide)
      · intro hcon
        exfalso
        rcases hcon with hcon | ⟨heq, _⟩
        · exact h1 hcon
        · omega
    · have heq : a.toNat = b.toNat := by omega
      rw [if_neg h1, if_neg h2]
      simp [heq]

theorem lexLe_total (a b : List Char) : lexLe a b = true ∨ lexLe b a = true := by
  induction a generalizing b with
  | nil => left; rfl
  | cons x xs ih =>
    cases b with
    | nil => right; rfl
    | cons y ys =>
      rw [lexLe_cons_iff, lexLe_cons_iff]
      rcases Nat.lt_trichotomy x.toNat y.toNat with h | h | h
      · left; left; exact h
      · rcases ih ys with h2 | h2
        · left; right; exact ⟨h, h2⟩
        · right; right; exact ⟨h.symm, h2⟩
      · right; left; exact h

theorem lexLe_trans (a b c : List Char)
    (hab : lexLe a b = true) (hbc : lexLe b c = true) : lexLe a c = true := by
  induction a generalizing b c with
  | nil => rfl
  | cons x xs ih =>
    cases b with
    | nil => simp [lexLe] at hab
    | cons y ys =>
      cases c with
      | nil => simp [lexLe] at hbc
      | cons z zs =>
        rw [lexLe_cons_iff] at hab hbc ⊢
        rcases hab with hab | ⟨hab, hab'⟩
        · rcases hbc with hbc | ⟨hbc, hbc'⟩
          · left; omega
          · left; omega
        · rcases hbc with hbc | ⟨hbc, hbc'⟩
          · left; omega
          · right; exact ⟨by omega, ih ys zs hab' hbc'⟩

theorem pyStrLe_total (a b : String) : pyStrLe a b = true ∨ pyStrLe b a = true :=
  lexLe_total a.data b.data

theorem pyStrLe_trans {a b c : String}
    (hab : pyStrLe a b = true) (hbc : pyStrLe b c = true) : pyStrLe a c = true :=
  lexLe_trans a.data b.data c.data hab hbc

theorem pyStrLe_refl (a : String) : pyStrLe a a = true :=
  lexLe_refl a.data

def ordInsert (x : String) : List String → List String
  | [] => [x]
  | y :: ys => if pyStrLe x y then x :: y :: ys else y :: ordInsert x ys

def pySorted : List String → List String
  | [] => []
  | x :: xs => ordInsert x (pySorted xs)

theorem mem_ordInsert (x y : String) (l : List String) :
    y ∈ ordInsert x l ↔ y = x ∨ y ∈ l := by
  induction l with
  | nil => simp [ordInsert]
  | cons z zs ih =>
    simp only [ordInsert]
    by_cases h : pyStrLe x z = true
    · rw [if_pos h]
      simp
    · rw [if_neg h]
      simp only [List.mem_cons, ih]
      tauto

theorem mem_pySorted (y : String) (l : List String) :
    y ∈ pySorted l ↔ y ∈ l := by
  induction l with
  | nil => simp [pySorted]
  | cons x xs ih => simp [pySorted, mem_ordInsert, ih]

theorem length_ordInsert (x : String) (l : List String) :
    (ordInsert x l).length = l.length + 1 := by
  induction l with
  | nil => rfl
  | cons z zs ih =>
    by_cases h : pyStrLe x z = true
    · simp [ordInsert, h]
    · simp [ordInsert, h, ih]

theorem length_pySorted (l : List String) :
    (pySorted l).length = l.length := by
  induction l with
  | nil => rfl
  | cons x xs ih => simp [pySorted, length_ordInsert, ih]

def StrSorted (l : List String) : Prop :=
  l.Pairwise (fun a b => pyStrLe a b = true)

theorem ordInsert_sorted (x : String) (l : List String) (h : StrSorted l) :
    StrSorted (ordInsert x l) := by
  induction l with
  | nil => simp [ordInsert, StrSorted]
  | cons y ys ih =>
    rcases List.pairwise_cons.mp h with ⟨hy, hys⟩
    unfold ordInsert
    by_cases hxy : pyStrLe x y = true
    · rw [if_pos hxy]
      refine List.pairwise_cons.mpr ⟨?_, h⟩
      intro b hb
      rcases List.mem_cons.mp hb with rfl | hb
      · exact hxy
      · exact pyStrLe_trans hxy (hy b hb)
    · rw [if_neg hxy]
      refine List.pairwise_cons.mpr ⟨?_, ih hys⟩
      intro b hb
      rcases (mem_ordInsert x b ys).mp hb with hbx | hb
      · rcases pyStrLe_total x y with h1 | h1
        · exact absurd h1 hxy
        · rw [hbx]; exact h1
      · exact hy b hb

theorem pySorted_sorted (l : List String) : StrSorted (pySorted l) := by
  induction l with
  | nil => exact List.Pairwise.nil
  | cons x xs ih => exact ordInsert_sorted x (pySorted xs) ih

theorem sorted_getLast?_max (l : List String) (m : String)
    (hs : StrSorted l) (hm : l.getLast? = some m) :
    ∀ k ∈ l, pyStrLe k m = true := by
  induction l with
  | nil => simp at hm
  | cons a as ih =>
    cases as with
    | nil =>
      simp only [List.getLast?_singleton, Option.some.injEq] at hm
      subst hm
      intro k hk
      rcases List.mem_singleton.mp hk with rfl
      exact pyStrLe_refl k
    | cons b bs =>
      rcases List.pairwise_cons.mp hs with ⟨ha, hs'⟩
      have hm' : (b :: bs).getLast? = some m := by
        simpa [List.getLast?_cons_cons] using hm
      intro k hk
      rcases List.mem_cons.mp hk with rfl | hk
      · have hmmem : m ∈ b :: bs := List.mem_of_mem_getLast? hm'
        exact ha m hmmem
      · exact ih hs' hm' k hk

theorem pySorted_ne_nil (l : List String) (h : l ≠ []) : pySorted l ≠ [] := by
  intro hcon
  have := length_pySorted l
  rw [hcon] at this
  simp at this
  exact h (List.eq_nil_of_length_eq_zero this.symm)

/-! Hex-address parsing: `int(addr, 16)` on a `0x`-prefixed hexadecimal
string, used to state numeric comparisons between address strings. -/

def hexDigit (c : Char) : Nat :=
  if 48 ≤ c.toNat ∧ c.toNat ≤ 57 then c.toNat - 48
  else if 97 ≤ c.toNat ∧ c.toNat ≤ 102 then c.toNat - 87
  else if 65 ≤ c.toNat ∧ c.toNat ≤ 70 then c.toNat - 55
  else 0

def hexToNat (s : String) : Nat :=
  let cs : List Char :=
    match s.data with
    | '0' :: 'x' :: rest => rest
    | l => l
  cs.foldl (fun a c => 16 * a + hexDigit c) 0

/-! The instruction data model (chb/app/Instruction.py is out of scope of
the sample; its fields used by the relational analysis are its address,
its raw byte encoding `bytestring`, the byte-reversed encoding
`rev_bytestring` (spec: "byte-reversed encoding"), and its rendered
semantic annotation string, here `annot`). -/

structure Instruction where
  iaddr : String
  bytestring : List Nat
  annot : String
  deriving DecidableEq, Repr

/-- Modelled from the spec: the byte-reversed encoding of an instruction
("when the two binaries differ in byte order, the hash of B is computed
over its byte-reversed encoding"); `Instruction.rev_bytestring` itself is
not part of the sample sources. -/
def Instruction.rev_bytestring (i : Instruction) : List Nat :=
  i.bytestring.reverse

/-- Source: chb/app/Instruction (used by InstructionRelationalAnalysis):
the instruction content hash over its byte encoding.  The md5 function is
abstracted as `hash`. -/
def Instruction.md5 (hash : List Nat → Nat) (i : Instruction) : Nat :=
  hash i.bytestring

/-- Source: chb/app/Instruction: the content hash over the byte-reversed
encoding. -/
def Instruction.rev_md5 (hash : List Nat → Nat) (i : Instruction) : Nat :=
  hash i.rev_bytestring

/-! BasicBlock (src/chb/app/BasicBlock.py): an ordered mapping from
address string to instruction, embedded as an association list. -/

structure BasicBlock where
  instructions : List (String × Instruction)
  deriving DecidableEq, Repr

/-- Source: BasicBlock.lastaddr = `sorted(self.instructions.keys())[-1]`.
Python's `sorted` sorts the address strings lexicographically; `[-1]` on
an empty list raises IndexError, modelled by `none`. -/
def BasicBlock.lastaddr (bb : BasicBlock) : Option String :=
  (pySorted (bb.instructions.map Prod.fst)).getLast?

/-- Source: BasicBlock.md5 — md5 over the concatenation of the
instructions' byte encodings. -/
def BasicBlock.md5 (hash : List Nat → Nat) (bb : BasicBlock) : Nat :=
  hash (bb.instructions.map (fun p => p.2.bytestring)).flatten

/-- Source: BasicBlock.rev_md5 — md5 over the concatenation of the
instructions' byte-reversed encodings (per-instruction reversal, original
instruction order). -/
def BasicBlock.rev_md5 (hash : List Nat → Nat) (bb : BasicBlock) : Nat :=
  hash (bb.instructions.map (fun p => p.2.rev_bytestring)).flatten

/-- C9 counterexample block: two instructions at addresses 0x999 and
0x1000. -/
def c9Block : BasicBlock :=
  ⟨[("0x1000", ⟨"0x1000", [1], "a"⟩), ("0x999", ⟨"0x999", [2], "b"⟩)]⟩

/-- C9 is false as stated: `lastaddr` sorts the address strings
lexicographically, so on a block with keys 0x1000 and 0x999 it returns
"0x999", although 0x999 is numerically smaller than 0x1000. -/
theorem c9_lastaddr_cex :
    BasicBlock.lastaddr c9Block = some "0x999" ∧
    "0x1000" ∈ c9Block.instructions.map Prod.fst ∧
    hexToNat "0x999" < hexToNat "0x1000" := by
  refine ⟨by rfl, by decide, by decide⟩

/-- C9 (amended): for every non-empty basic block, `lastaddr` is the
maximum key of the instruction map under the lexicographic string order
used by Python's `sorted` (which coincides with numeric order only when
the keys have equal length). -/
theorem c9_lastaddr_amended (bb : BasicBlock) (h : bb.instructions ≠ []) :
    ∃ m, BasicBlock.lastaddr bb = some m ∧
      m ∈ bb.instructions.map Prod.fst ∧
      ∀ k ∈ bb.instructions.map Prod.fst, pyStrLe k m = true := by
  have hkeys : bb.instructions.map Prod.fst ≠ [] := by
    simpa using h
  have hsne : pySorted (bb.instructions.map Prod.fst) ≠ [] :=
    pySorted_ne_nil _ hkeys
  rcases List.getLast?_isSome.mpr hsne |> Option.isSome_iff_exists.mp with ⟨m, hm⟩
  refine ⟨m, hm, ?_, ?_⟩
  · have : m ∈ pySorted (bb.instructions.map Prod.fst) := List.mem_of_mem_getLast? hm
    exact (mem_pySorted m _).mp this
  · intro k hk
    have hk' : k ∈ pySorted (bb.instructions.map Prod.fst) :=
      (mem_pySorted k _).mpr hk
    exact sorted_getLast?_max _ m (pySorted_sorted _) hm k hk'

/-- C9 witness: the amended statement applied to a concrete two-element
block. -/
theorem c9_lastaddr_amended_witness :
    ∃ m, BasicBlock.lastaddr ⟨[("0x10", ⟨"0x10", [1], "a"⟩), ("0x14", ⟨"0x14", [2], "b"⟩)]⟩ = some m ∧
      m ∈ (⟨[("0x10", ⟨"0x10", [1], "a"⟩), ("0x14", ⟨"0x14", [2], "b"⟩)]⟩ : BasicBlock).instructions.map Prod.fst ∧
      ∀ k ∈ (⟨[("0x10", ⟨"0x10", [1], "a"⟩), ("0x14", ⟨"0x14", [2], "b"⟩)]⟩ : BasicBlock).instructions.map Prod.fst, pyStrLe k m = true :=
  c9_lastaddr_amended ⟨[("0x10", ⟨"0x10", [1], "a"⟩), ("0x14", ⟨"0x14", [2], "b"⟩)]⟩ (by decide)

/-! Substring containment: Python's `c in s` on strings tests whether `c`
occurs as a contiguous substring of `s`. -/

def strContains (hay nee : String) : Bool :=
  decide (List.IsInfix nee.data hay.data)

/-! InstructionRelationalAnalysis
(src/chb/relational/InstructionRelationalAnalysis.py): the state is the
pair of apps (only their header endianness is consulted), the original
instruction, and the optional matched instruction (`_instr2`). -/

structure InstructionRelationalAnalysis where
  bigEndian1 : Bool
  bigEndian2 : Bool
  instr1 : Instruction
  instr2opt : Option Instruction
  deriving DecidableEq, Repr

namespace InstructionRelationalAnalysis

/-- Source: is_mapped — the matched instruction is present. -/
def is_mapped (ira : InstructionRelationalAnalysis) : Bool :=
  ira.instr2opt.isSome

/-- Source: instr2 — returns the matched instruction when mapped,
otherwise raises `CHBError("No corresponding instruction found for " +
iaddr)`, modelled as an `Except` error carrying the message. -/
def instr2 (ira : InstructionRelationalAnalysis) : Except String Instruction :=
  match ira.instr2opt with
  | some i => .ok i
  | none => .error ("No corresponding instruction found for " ++ ira.instr1.iaddr)

/-- Source: same_endianness — both apps' headers agree on big-endianness. -/
def same_endianness (ira : InstructionRelationalAnalysis) : Bool :=
  ira.bigEndian1 == ira.bigEndian2

/-- Source: same_address — mapped and literal address equality. -/
def same_address (ira : InstructionRelationalAnalysis) : Bool :=
  match ira.instr2opt with
  | some i2 => ira.instr1.iaddr == i2.iaddr
  | none => false

/-- Source: is_md5_equal — when mapped, md5 of instruction 1 versus md5 of
instruction 2 under equal endianness, and versus rev_md5 of instruction 2
when the endianness differs; false when unmapped. -/
def is_md5_equal (hash : List Nat → Nat)
    (ira : InstructionRelationalAnalysis) : Bool :=
  match ira.instr2opt with
  | some i2 =>
    if same_endianness ira then
      Instruction.md5 hash ira.instr1 == Instruction.md5 hash i2
    else
      Instruction.md5 hash ira.instr1 == Instruction.rev_md5 hash i2
  | none => false

/-- Source: has_different_annotation — mapped: inequality of the two
rendered annotations; unmapped: true. -/
def has_different_annot (ira : InstructionRelationalAnalysis) : Bool :=
  match ira.instr2opt with
  | some i2 => ira.instr1.annot != i2.annot
  | none => true

/-- Source: changes — the aggregated change set drawn from
{address, bytes, semantics}. -/
def changes (hash : List Nat → Nat)
    (ira : InstructionRelationalAnalysis) : List String :=
  (if same_address ira then [] else ["address"]) ++
  (if is_md5_equal hash ira then [] else ["bytes"]) ++
  (if has_different_annot ira then ["semantics"] else [])

/-- Source: is_changed — the change set is non-empty. -/
def is_changed (hash : List Nat → Nat)
    (ira : InstructionRelationalAnalysis) : Bool :=
  (changes hash ira).length > 0

/-- Source: calls_function — true when the callee list is empty; otherwise
true iff some callee occurs in instruction 1's annotation while "call"
also occurs in it (the loop `for c in callees: if c in annotation and
"call" in annotation: return True` and the for-else `return False`). -/
def calls_function (ira : InstructionRelationalAnalysis)
    (callees : List String) : Bool :=
  let annot := ira.instr1.annot
  if callees.length == 0 then true
  else callees.any (fun c => strContains annot c && strContains annot "call")

end InstructionRelationalAnalysis

/-- C5: an instruction relational analysis constructed without a
corresponding instruction on the second side reports `is_changed` true,
and requesting `instr2` yields the no-correspondence error instead of an
instruction. -/
theorem c5_unmapped_instruction (hash : List Nat → Nat)
    (e1 e2 : Bool) (i1 : Instruction) :
    InstructionRelationalAnalysis.is_changed hash ⟨e1, e2, i1, none⟩ = true ∧
    InstructionRelationalAnalysis.instr2 ⟨e1, e2, i1, none⟩ =
      .error ("No corresponding instruction found for " ++ i1.iaddr) := by
  constructor
  · simp [InstructionRelationalAnalysis.is_changed,
      InstructionRelationalAnalysis.changes,
      InstructionRelationalAnalysis.same_address]
  · rfl

/-- C10: `calls_function` is true whenever the callee list is empty; for a
non-empty list it is true iff some callee occurs in the first
instruction's annotation and "call" also occurs there; and its value
never depends on the matched (second) instruction or the endianness
fields. -/
theorem c10_calls_function (ira : InstructionRelationalAnalysis)
    (callees : List String) :
    (callees = [] → InstructionRelationalAnalysis.calls_function ira callees = true) ∧
    (callees ≠ [] →
      (InstructionRelationalAnalysis.calls_function ira callees = true ↔
        ∃ c ∈ callees, strContains ira.instr1.annot c = true ∧
          strContains ira.instr1.annot "call" = true)) ∧
    (∀ e1 e2 o2, InstructionRelationalAnalysis.calls_function
        ⟨e1, e2, ira.instr1, o2⟩ callees =
      InstructionRelationalAnalysis.calls_function ira callees) := by
  refine ⟨?_, ?_, ?_⟩
  · intro h
    subst h
    rfl
  · intro h
    have hlen : (callees.length == 0) = false := by
      simp [List.length_eq_zero, h]
    simp [InstructionRelationalAnalysis.calls_function, hlen, List.any_eq_true]
  · intro e1 e2 o2
    rfl

/-- C10 witness: a concrete strcpy-call annotation with callee list
["strcpy"], plus the empty-callee case. -/
theorem c10_calls_function_witness :
    InstructionRelationalAnalysis.calls_function
      ⟨false, false, ⟨"0x1", [1], "call strcpy(a, b)"⟩, none⟩ [] = true ∧
    (InstructionRelationalAnalysis.calls_function
      ⟨false, false, ⟨"0x1", [1], "call strcpy(a, b)"⟩, none⟩ ["strcpy"] = true ↔
        ∃ c ∈ ["strcpy"],
          strContains "call strcpy(a, b)" c = true ∧
          strContains "call strcpy(a, b)" "call" = true) :=
  ⟨(c10_calls_function ⟨false, false, ⟨"0x1", [1], "call strcpy(a, b)"⟩, none⟩ []).1 rfl,
    (c10_calls_function ⟨false, false, ⟨"0x1", [1], "call strcpy(a, b)"⟩, none⟩ ["strcpy"]).2.1
      (by decide)⟩

/-! FunctionRelationalAnalysis
(src/chb/relational/FunctionRelationalAnalysis.py): the state is the pair
of apps (endianness), the two functions' addresses, basic-block address
sets, control-flow-graph edge sets, and instruction contents.  Addresses
are represented by their numeric values: the source addresses are
canonical hex strings and every use here goes through
`int(addr, 16)` / `hex(...)`. -/

structure FunctionRelationalAnalysis where
  bigEndian1 : Bool
  bigEndian2 : Bool
  faddr1 : Int
  faddr2 : Int
  blocks1 : Finset Int
  blocks2 : Finset Int
  edges1 : Finset (Int × Int)
  edges2 : Finset (Int × Int)
  content1 : List (List Nat)
  content2 : List (List Nat)
  deriving DecidableEq

namespace FunctionRelationalAnalysis

/-- Source: offset — the difference between the two function addresses
(`int(self.faddr2, 16) - int(self.faddr1, 16)`). -/
def offset (f : FunctionRelationalAnalysis) : Int :=
  f.faddr2 - f.faddr1

/-- Source: address2_align — the corresponding address in fn1's frame,
obtained by subtracting the offset. -/
def address2_align (f : FunctionRelationalAnalysis) (addr2 : Int) : Int :=
  addr2 - offset f

/-- Source: edge2_align — align both endpoints of a cfg edge of fn2. -/
def edge2_align (f : FunctionRelationalAnalysis) (e : Int × Int) : Int × Int :=
  (address2_align f e.1, address2_align f e.2)

/-- Source: same_endianness. -/
def same_endianness (f : FunctionRelationalAnalysis) : Bool :=
  f.bigEndian1 == f.bigEndian2

/-- Source: chb/app/Function md5 (the per-function analogue of
BasicBlock.md5): md5 over the concatenated instruction byte encodings. -/
def fn_md5 (hash : List Nat → Nat) (content : List (List Nat)) : Nat :=
  hash content.flatten

/-- Source: chb/app/Function rev_md5 (the analogue of
BasicBlock.rev_md5): md5 over the concatenation of the per-instruction
byte-reversed encodings. -/
def fn_rev_md5 (hash : List Nat → Nat) (content : List (List Nat)) : Nat :=
  hash (content.map List.reverse).flatten

/-- Source: is_md5_equal — endianness-normalized function content-hash
comparison. -/
def is_md5_equal (hash : List Nat → Nat)
    (f : FunctionRelationalAnalysis) : Bool :=
  if same_endianness f then
    fn_md5 hash f.content1 == fn_md5 hash f.content2
  else
    fn_md5 hash f.content1 == fn_rev_md5 hash f.content2

/-- Source: is_structurally_equivalent — block and edge counts match, the
aligned block-address set of fn2 minus fn1's block-address set is empty,
and (only checked then) fn1's edge set minus the aligned edge set of fn2
is empty. -/
def is_structurally_equivalent (f : FunctionRelationalAnalysis) : Bool :=
  decide (f.blocks1.card = f.blocks2.card) &&
  decide (f.edges1.card = f.edges2.card) &&
  decide (f.blocks2.image (address2_align f) \ f.blocks1 = ∅) &&
  decide (f.edges1 \ f.edges2.image (edge2_align f) = ∅)

/-- Source: block_mapping — populated only when structurally equivalent:
each block address of fn1 maps to itself plus the offset
(`hex(int(b1, 16) + self.offset)`); otherwise the cache stays empty. -/
def block_mapping (f : FunctionRelationalAnalysis) : Finset (Int × Int) :=
  if is_structurally_equivalent f then
    f.blocks1.image (fun b1 => (b1, b1 + offset f))
  else ∅

end FunctionRelationalAnalysis

theorem sub_shift_injective (d : Int) :
    Function.Injective (fun b : Int => b - d) := by
  intro a b h
  simpa using congrArg (fun x => x + d) h

theorem edge_shift_injective (d : Int) :
    Function.Injective (fun e : Int × Int => (e.1 - d, e.2 - d)) := by
  intro a b h
  have h1 := congrArg Prod.fst h
  have h2 := congrArg Prod.snd h
  simp only [] at h1 h2
  have h1' : a.1 = b.1 := by
    have := congrArg (fun x => x + d) h1
    simpa using this
  have h2' : a.2 = b.2 := by
    have := congrArg (fun x => x + d) h2
    simpa using this
  exact Prod.ext h1' h2'

/-- C3: structural equivalence holds iff block counts and edge counts
match and fn2's block-address set shifted by the negated offset equals
fn1's block-address set and fn2's edge set with both endpoints shifted by
the negated offset equals fn1's edge set; and when it holds, the block
mapping sends every block address a of fn1 to a + offset. -/
theorem c3_structural_equivalence (f : FunctionRelationalAnalysis) :
    (FunctionRelationalAnalysis.is_structurally_equivalent f = true ↔
      (f.blocks1.card = f.blocks2.card ∧
       f.edges1.card = f.edges2.card ∧
       f.blocks2.image (fun b => b - FunctionRelationalAnalysis.offset f) = f.blocks1 ∧
       f.edges2.image (fun e => (e.1 - FunctionRelationalAnalysis.offset f,
         e.2 - FunctionRelationalAnalysis.offset f)) = f.edges1)) ∧
    (FunctionRelationalAnalysis.is_structurally_equivalent f = true →
      ∀ a ∈ f.blocks1,
        (a, a + FunctionRelationalAnalysis.offset f) ∈
          FunctionRelationalAnalysis.block_mapping f) := by
  have himg1 : f.blocks2.image (FunctionRelationalAnalysis.address2_align f) =
      f.blocks2.image (fun b => b - FunctionRelationalAnalysis.offset f) := rfl
  have himg2 : f.edges2.image (FunctionRelationalAnalysis.edge2_align f) =
      f.edges2.image (fun e => (e.1 - FunctionRelationalAnalysis.offset f,
        e.2 - FunctionRelationalAnalysis.offset f)) := rfl
  have hcard1 : (f.blocks2.image
      (fun b => b - FunctionRelationalAnalysis.offset f)).card = f.blocks2.card :=
    Finset.card_image_of_injective _
      (sub_shift_injective (FunctionRelationalAnalysis.offset f))
  have hcard2 : (f.edges2.image
      (fun e => (e.1 - FunctionRelationalAnalysis.offset f,
        e.2 - FunctionRelationalAnalysis.offset f))).card = f.edges2.card :=
    Finset.card_image_of_injective _
      (edge_shift_injective (FunctionRelationalAnalysis.offset f))
  constructor
  · constructor
    · intro h
      simp only [FunctionRelationalAnalysis.is_structurally_equivalent,
        Bool.and_eq_true, decide_eq_true_eq, himg1, himg2] at h
      rcases h with ⟨⟨⟨hb, he⟩, hbs⟩, hes⟩
      rw [Finset.sdiff_eq_empty_iff_subset] at hbs hes
      refine ⟨hb, he, ?_, ?_⟩
      · exact Finset.eq_of_subset_of_card_le hbs (by rw [hcard1]; omega)
      · exact (Finset.eq_of_subset_of_card_le hes (by rw [hcard2]; omega)).symm
    · intro ⟨hb, he, hbs, hes⟩
      simp only [FunctionRelationalAnalysis.is_structurally_equivalent,
        Bool.and_eq_true, decide_eq_true_eq, himg1, himg2]
      refine ⟨⟨⟨hb, he⟩, ?_⟩, ?_⟩
      · rw [Finset.sdiff_eq_empty_iff_subset, hbs]
      · rw [Finset.sdiff_eq_empty_iff_subset, hes]
  · intro h a ha
    simp only [FunctionRelationalAnalysis.block_mapping, h, if_true]
    exact Finset.mem_image_of_mem _ ha

/-- C3 witness: two two-block one-edge graphs shifted by 0x10 are
structurally equivalent, with block 0 mapped to 0x10. -/
theorem c3_structural_equivalence_witness :
    FunctionRelationalAnalysis.is_structurally_equivalent
      ⟨false, false, 0, 16, {0, 4}, {16, 20}, {(0, 4)}, {(16, 20)}, [], []⟩ = true ∧
    ((0 : Int), (16 : Int)) ∈ FunctionRelationalAnalysis.block_mapping
      ⟨false, false, 0, 16, {0, 4}, {16, 20}, {(0, 4)}, {(16, 20)}, [], []⟩ :=
  ⟨by decide,
    (c3_structural_equivalence
      ⟨false, false, 0, 16, {0, 4}, {16, 20}, {(0, 4)}, {(16, 20)}, [], []⟩).2
      (by decide) 0 (by decide)⟩

/-- C4: content equality is endianness-normalized.  For a mapped
instruction pair: under equal endianness it is hash equality of the byte
encodings, under differing endianness it is hash of instruction 1's bytes
versus hash of instruction 2's byte-reversed encoding, so two
instructions that are byte-for-byte identical up to byte reversal compare
equal.  For a function pair the same scheme holds: under differing
endianness the second function's hash is taken over the per-instruction
byte-reversed encodings. -/
theorem c4_endianness_normalized_md5 (hash : List Nat → Nat)
    (e1 e2 : Bool) (i1 i2 : Instruction) (fra : FunctionRelationalAnalysis) :
    (e1 = e2 →
      (InstructionRelationalAnalysis.is_md5_equal hash ⟨e1, e2, i1, some i2⟩ = true ↔
        hash i1.bytestring = hash i2.bytestring)) ∧
    (e1 ≠ e2 →
      (InstructionRelationalAnalysis.is_md5_equal hash ⟨e1, e2, i1, some i2⟩ = true ↔
        hash i1.bytestring = hash i2.bytestring.reverse)) ∧
    (e1 ≠ e2 → i1.bytestring = i2.bytestring.reverse →
      InstructionRelationalAnalysis.is_md5_equal hash ⟨e1, e2, i1, some i2⟩ = true) ∧
    (fra.bigEndian1 ≠ fra.bigEndian2 →
      (FunctionRelationalAnalysis.is_md5_equal hash fra = true ↔
        hash fra.content1.flatten = hash (fra.content2.map List.reverse).flatten)) := by
  refine ⟨?_, ?_, ?_, ?_⟩
  · intro he
    simp [InstructionRelationalAnalysis.is_md5_equal,
      InstructionRelationalAnalysis.same_endianness, he,
      Instruction.md5, Instruction.rev_md5, Instruction.rev_bytestring]
  · intro he
    have hne : (e1 == e2) = false := by
      cases e1 <;> cases e2 <;> simp_all
    simp [InstructionRelationalAnalysis.is_md5_equal,
      InstructionRelationalAnalysis.same_endianness, hne,
      Instruction.md5, Instruction.rev_md5, Instruction.rev_bytestring]
  · intro he hb
    have hne : (e1 == e2) = false := by
      cases e1 <;> cases e2 <;> simp_all
    simp [InstructionRelationalAnalysis.is_md5_equal,
      InstructionRelationalAnalysis.same_endianness, hne,
      Instruction.md5, Instruction.rev_md5, Instruction.rev_bytestring, hb]
  · intro he
    have hne : (fra.bigEndian1 == fra.bigEndian2) = false := by
      cases h1 : fra.bigEndian1 <;> cases h2 : fra.bigEndian2 <;> simp_all
    simp [FunctionRelationalAnalysis.is_md5_equal,
      FunctionRelationalAnalysis.same_endianness, hne,
      FunctionRelationalAnalysis.fn_md5, FunctionRelationalAnalysis.fn_rev_md5]

/-- C4 witness: a little-endian/big-endian pair whose byte encodings are
reverses of each other compares md5-equal, instantiated with a concrete
hash function. -/
theorem c4_endianness_normalized_md5_witness :
    (false : Bool) ≠ (true : Bool) ∧
    InstructionRelationalAnalysis.is_md5_equal
      (fun l => l.foldl (fun a b => 256 * a + b + 1) 7)
      ⟨false, true, ⟨"0x100", [1, 2, 3], "x"⟩, some ⟨"0x100", [3, 2, 1], "x"⟩⟩ = true :=
  ⟨by decide,
    (c4_endianness_normalized_md5 (fun l => l.foldl (fun a b => 256 * a + b + 1) 7)
      false true ⟨"0x100", [1, 2, 3], "x"⟩ ⟨"0x100", [3, 2, 1], "x"⟩
      ⟨false, false, 0, 0, ∅, ∅, ∅, ∅, [], []⟩).2.2.1
      (by decide) (by decide)⟩

/-! RelationalAnalysis (src/chb/relational/RelationalAnalysis.py): the
binary-pair state.  The constructor sorts the two address lists and
initializes the memoized function mapping `_functionmapping` to the empty
dict; the user-supplied mapping is stored separately in `_usermapping`.
Python dicts keyed by address strings are embedded as association lists
in insertion order.  The CallgraphMatcher (chb/relational/
CallgraphMatcher.py, not part of the sample) is abstracted as the
function argument `cgMatch` taking the two address lists and the
user-supplied seed mapping. -/

def dictContains (d : List (String × String)) (k : String) : Bool :=
  d.any (fun p => p.1 == k)

inductive PyErr where
  | nameError
  | keyError
  deriving DecidableEq, Repr

structure RelationalAnalysis where
  faddrs1 : List String
  faddrs2 : List String
  usermapping : List (String × String)
  functionmapping : List (String × String)
  deriving DecidableEq, Repr

/-- Source: RelationalAnalysis.__init__ — the address lists are sorted;
the memoized function mapping starts out empty (the user mapping is NOT
copied into it). -/
def mkRelationalAnalysis (faddrs1 faddrs2 : List String)
    (usermapping : List (String × String)) : RelationalAnalysis :=
  ⟨pySorted faddrs1, pySorted faddrs2, usermapping, []⟩

namespace RelationalAnalysis

/-- Source: function_mapping — returns the cached mapping when non-empty;
otherwise, with equal function counts, maps the sorted set differences
positionally by zip and every remaining address of faddrs1 to itself;
otherwise delegates to the callgraph matcher seeded with the user
mapping. -/
def function_mapping
    (cgMatch : List String → List String → List (String × String) →
      List (String × String))
    (ra : RelationalAnalysis) : List (String × String) :=
  if ra.functionmapping.length > 0 then ra.functionmapping
  else if ra.faddrs1.length == ra.faddrs2.length then
    let diff1 := pySorted ((ra.faddrs1.filter
      (fun a => ! ra.faddrs2.contains a)).dedup)
    let diff2 := pySorted ((ra.faddrs2.filter
      (fun a => ! ra.faddrs1.contains a)).dedup)
    let start := diff1.zip diff2
    ra.faddrs1.foldl
      (fun result faddr1 =>
        if dictContains result faddr1 then result
        else result ++ [(faddr1, faddr1)])
      start
  else cgMatch ra.faddrs1 ra.faddrs2 ra.usermapping

/-- Source: functions_changed — first collects the addresses of analyzed
functions that moved or are not md5-equal, then runs the consistency
loop `for (faddr1, md51) in self.md5s1.items()`, whose membership tests
`if faddr in self.md5s2` and `faddr in result` use the stale variable
`faddr` left over from the first loop (unbound when there were no
function analyses, giving a Python NameError) while the compared hash is
`self.md5s2[faddr1]` (KeyError when faddr1 is missing).  An analysis is
the triple (faddr, moved, is_md5_equal). -/
def functions_changed (analyses : List (String × Bool × Bool))
    (md5s1 md5s2 : List (String × String)) : Except PyErr (List String) :=
  let result0 := (analyses.filter (fun a => a.2.1 || ! a.2.2)).map (fun a => a.1)
  match (analyses.map (fun a => a.1)).getLast? with
  | none =>
    if md5s1.isEmpty then .ok result0 else .error PyErr.nameError
  | some faddr =>
    md5s1.foldlM
      (fun result p =>
        if dictContains md5s2 faddr then
          match List.lookup p.1 md5s2 with
          | none => .error PyErr.keyError
          | some m2 =>
            if p.2 == m2 || result.contains faddr then pure result
            else pure (result ++ [p.1])
        else pure result)
      result0

end RelationalAnalysis

/-- A concrete callgraph matcher used for closed evaluations: returns the
user seed unchanged. -/
def cgSeedOnly : List String → List String → List (String × String) →
    List (String × String) :=
  fun _ _ um => um

/-- C1 demonstration at the failing input: function 0xb has disagreeing
md5 hashes in the two snapshots and was not reported by the per-function
analyses, yet `functions_changed` omits it, because the consistency loop
tests the stale variable faddr = "0xa" (the last analyzed address)
against the second hash table instead of the iterated key "0xb"; with no
analyses at all the stale variable is unbound and the loop raises
NameError. -/
theorem c1_functions_changed_bug_eval :
    RelationalAnalysis.functions_changed
      [("0xa", false, true)] [("0xb", "h1")] [("0xb", "h2")] = .ok [] ∧
    ("h1" : String) ≠ "h2" ∧
    dictContains [("0xb", "h2")] "0xb" = true ∧
    RelationalAnalysis.functions_changed
      [] [("0xb", "h1")] [("0xb", "h2")] = .error PyErr.nameError := by
  refine ⟨rfl, by decide, by decide, rfl⟩

/-- C2 counterexample: with the non-empty user mapping {0x1 ↦ 0x2} and
equal-length address lists, the computed function mapping is the
positional identity mapping, not the user mapping. -/
theorem c2_usermapping_not_verbatim_cex :
    (mkRelationalAnalysis ["0x1", "0x2"] ["0x1", "0x2"]
      [("0x1", "0x2")]).usermapping ≠ [] ∧
    List.lookup "0x1" (RelationalAnalysis.function_mapping cgSeedOnly
      (mkRelationalAnalysis ["0x1", "0x2"] ["0x1", "0x2"] [("0x1", "0x2")])) =
      some "0x1" ∧
    List.lookup "0x1" [("0x1", "0x2")] = some "0x2" ∧
    RelationalAnalysis.function_mapping cgSeedOnly
      (mkRelationalAnalysis ["0x1", "0x2"] ["0x1", "0x2"] [("0x1", "0x2")]) ≠
      [("0x1", "0x2")] := by
  refine ⟨by decide, by rfl, by rfl, by decide⟩

/-- C2 (amended): the first branch of function_mapping only returns the
already-memoized mapping, which is empty at construction, never the user
mapping.  Hence on a freshly constructed analysis with equal-length
address lists the positional strategy is used and the result does not
depend on the user mapping at all; with unequal lengths the callgraph
matcher runs, seeded with the user mapping. -/
theorem c2_function_mapping_strategies_amended
    (cgMatch : List String → List String → List (String × String) →
      List (String × String))
    (faddrs1 faddrs2 : List String) (um um' : List (String × String)) :
    (faddrs1.length = faddrs2.length →
      RelationalAnalysis.function_mapping cgMatch
        (mkRelationalAnalysis faddrs1 faddrs2 um) =
      RelationalAnalysis.function_mapping cgMatch
        (mkRelationalAnalysis faddrs1 faddrs2 um')) ∧
    (faddrs1.length ≠ faddrs2.length →
      RelationalAnalysis.function_mapping cgMatch
        (mkRelationalAnalysis faddrs1 faddrs2 um) =
      cgMatch (pySorted faddrs1) (pySorted faddrs2) um) := by
  constructor
  · intro h
    have hb : ((pySorted faddrs1).length == (pySorted faddrs2).length) = true := by
      simp [length_pySorted, h]
    simp [RelationalAnalysis.function_mapping, mkRelationalAnalysis, hb]
  · intro h
    have hb : ((pySorted faddrs1).length == (pySorted faddrs2).length) = false := by
      simp [length_pySorted, h]
    simp [RelationalAnalysis.function_mapping, mkRelationalAnalysis, hb]

/-- C2 witness: the amended statement applied to concrete address lists,
both in the equal-length case and in the unequal-length case. -/
theorem c2_function_mapping_strategies_witness :
    (RelationalAnalysis.function_mapping cgSeedOnly
      (mkRelationalAnalysis ["0x2", "0x1"] ["0x1", "0x3"] [("a", "b")]) =
     RelationalAnalysis.function_mapping cgSeedOnly
      (mkRelationalAnalysis ["0x2", "0x1"] ["0x1", "0x3"] [])) ∧
    (RelationalAnalysis.function_mapping cgSeedOnly
      (mkRelationalAnalysis ["0x2", "0x1"] ["0x1"] [("a", "b")]) =
     cgSeedOnly (pySorted ["0x2", "0x1"]) (pySorted ["0x1"]) [("a", "b")]) :=
  ⟨(c2_function_mapping_strategies_amended cgSeedOnly
      ["0x2", "0x1"] ["0x1", "0x3"] [("a", "b")] []).1 (by decide),
   (c2_function_mapping_strategies_amended cgSeedOnly
      ["0x2", "0x1"] ["0x1"] [("a", "b")] []).2 (by decide)⟩

/-! AST lowering (src/chb/invariants/XXprUtil.py).  The ASTInterface
collaborator's lvalue constructors (mk_stack_variable_lval,
mk_named_lval, mk_formal_lval, mk_register_variable_lval) are embedded as
constructors of `ASTLval`; types are opaque strings.  A formal parameter
carries its argument index and its declared argument-location list. -/

structure ASTFormal where
  argindex : Nat
  arglocs : List Nat
  deriving DecidableEq, Repr

inductive ASTLval where
  | stackVariable (offset : Int) (vtype : Option String)
  | namedLval (name : String)
  | formalLval (formal : ASTFormal)
  | registerVariable (name : String)
  deriving DecidableEq, Repr

/-! VMemoryOffset (chb/invariants/VMemoryOffset.py, collaborator): either
a constant-value offset or a symbolic offset rendered by its string. -/

inductive VMemoryOffset where
  | constantValue (value : Int)
  | symbolicOffset (descr : String)
  deriving DecidableEq, Repr

def VMemoryOffset.is_constant_value_offset : VMemoryOffset → Bool
  | .constantValue _ => true
  | .symbolicOffset _ => false

def VMemoryOffset.offsetvalue : VMemoryOffset → Int
  | .constantValue k => k
  | .symbolicOffset _ => 0

def VMemoryOffset.str : VMemoryOffset → String
  | .constantValue k => toString k
  | .symbolicOffset d => d

/-- Source: stack_variable_to_ast_lvals — for a constant-value offset,
access size 2 yields two stack-variable lvalues at the offset and the
offset plus one (in that order, both with the given vtype), any other
size yields a single stack-variable lvalue at the offset; a non-constant
offset yields a named lvalue "stack: ...". -/
def stack_variable_to_ast_lvals (offset : VMemoryOffset) (size : Int)
    (ctype : Option String) : List ASTLval :=
  if offset.is_constant_value_offset then
    if size = 2 then
      [ASTLval.stackVariable offset.offsetvalue ctype,
       ASTLval.stackVariable (offset.offsetvalue + 1) ctype]
    else
      [ASTLval.stackVariable offset.offsetvalue ctype]
  else [ASTLval.namedLval ("stack: " ++ offset.str)]

/-! VInitialRegisterValue (chb/invariants/VConstantValueVariable.py,
collaborator): an initial-register-value variable with its register name,
whether it is an argument value, and (then) its argument index.  The
collaborator call astree.get_formal_locindices(argindex), which returns
the formal containing that argument index together with the location
indices the argument covers in the formal's arglocs, is abstracted as the
function parameter `g`; by its contract the returned location indices lie
within the formal's location-index range. -/

structure VInitialRegisterValue where
  register : String
  is_argument_value : Bool
  argument_index : Nat
  deriving DecidableEq, Repr

/-- Source: the loop body of vinitregister_value_list_to_ast_lvals —
accumulates the set of formal argument indices, the set of covered
location indices, and the (last) formal. -/
def viStep (g : Nat → ASTFormal × List Nat)
    (acc : Finset Nat × Finset Nat × Option ASTFormal)
    (v : VInitialRegisterValue) : Finset Nat × Finset Nat × Option ASTFormal :=
  (insert (g v.argument_index).1.argindex acc.1,
   acc.2.1 ∪ (g v.argument_index).2.toFinset,
   some (g v.argument_index).1)

/-- Source: vinitregister_value_list_to_ast_lvals — when every element is
an argument value, all belong to one formal (a single formal argindex)
and the covered location-index count equals the formal's arglocs length,
a single formal lvalue results; otherwise one register-variable lvalue
per input. -/
def vinitregister_value_list_to_ast_lvals
    (g : Nat → ASTFormal × List Nat)
    (vconstvars : List VInitialRegisterValue) : List ASTLval :=
  if vconstvars.all (fun v => v.is_argument_value) then
    match (vconstvars.foldl (viStep g) (∅, ∅, none)).2.2 with
    | some formal =>
      if (vconstvars.foldl (viStep g) (∅, ∅, none)).1.card = 1 then
        if (vconstvars.foldl (viStep g) (∅, ∅, none)).2.1.card =
            formal.arglocs.length then
          [ASTLval.formalLval formal]
        else vconstvars.map (fun v => ASTLval.registerVariable v.register)
      else vconstvars.map (fun v => ASTLval.registerVariable v.register)
    | none => vconstvars.map (fun v => ASTLval.registerVariable v.register)
  else vconstvars.map (fun v => ASTLval.registerVariable v.register)

/-- The combined covered location-index set of a variable list. -/
def combinedLocs (g : Nat → ASTFormal × List Nat)
    (l : List VInitialRegisterValue) : Finset Nat :=
  (l.map (fun v => (g v.argument_index).2.toFinset)).foldr (· ∪ ·) ∅

theorem viFold_fst (g : Nat → ASTFormal × List Nat)
    (l : List VInitialRegisterValue) (s t : Finset Nat) (o : Option ASTFormal) :
    (l.foldl (viStep g) (s, t, o)).1 =
      s ∪ (l.map (fun v => (g v.argument_index).1.argindex)).toFinset := by
  induction l generalizing s t o with
  | nil => simp
  | cons v rest ih =>
    simp only [List.foldl_cons, List.map_cons, List.toFinset_cons, viStep]
    rw [ih]
    rw [Finset.insert_union, Finset.union_insert]

theorem viFold_snd (g : Nat → ASTFormal × List Nat)
    (l : List VInitialRegisterValue) (s t : Finset Nat) (o : Option ASTFormal) :
    (l.foldl (viStep g) (s, t, o)).2.1 = t ∪ combinedLocs g l := by
  induction l generalizing s t o with
  | nil => simp [combinedLocs]
  | cons v rest ih =>
    simp only [List.foldl_cons, combinedLocs, List.map_cons, List.foldr_cons, viStep]
    rw [ih]
    rw [combinedLocs, Finset.union_assoc]

theorem viFold_trd (g : Nat → ASTFormal × List Nat)
    (l : List VInitialRegisterValue) (s t : Finset Nat) (o : Option ASTFormal) :
    (l.foldl (viStep g) (s, t, o)).2.2 =
      match l.getLast? with
      | none => o
      | some v => some (g v.argument_index).1 := by
  induction l generalizing s t o with
  | nil => simp
  | cons v rest ih =>
    cases rest with
    | nil => simp [viStep]
    | cons w ws =>
      rw [List.foldl_cons]
      simp only [viStep]
      rw [ih]
      have hne : (w :: ws) ≠ ([] : List VInitialRegisterValue) := by simp
      rcases Option.isSome_iff_exists.mp (List.getLast?_isSome.mpr hne) with ⟨u, hu⟩
      rw [List.getLast?_cons_cons, hu]

theorem toFinset_map_const {α : Type} [DecidableEq α]
    (l : List VInitialRegisterValue) (h : VInitialRegisterValue → α) (c : α)
    (hne : l ≠ []) (hc : ∀ v ∈ l, h v = c) : (l.map h).toFinset = {c} := by
  induction l with
  | nil => exact absurd rfl hne
  | cons v rest ih =>
    simp only [List.map_cons, List.toFinset_cons]
    rw [hc v (List.mem_cons_self v rest)]
    cases rest with
    | nil => simp
    | cons w ws =>
      rw [ih (by simp) (fun u hu => hc u (List.mem_cons_of_mem v hu))]
      simp

theorem combinedLocs_subset (g : Nat → ASTFormal × List Nat)
    (l : List VInitialRegisterValue) (S : Finset Nat)
    (h : ∀ v ∈ l, (g v.argument_index).2.toFinset ⊆ S) :
    combinedLocs g l ⊆ S := by
  induction l with
  | nil => simp [combinedLocs]
  | cons v rest ih =>
    simp only [combinedLocs, List.map_cons, List.foldr_cons]
    refine Finset.union_subset (h v (List.mem_cons_self v rest)) ?_
    exact ih (fun u hu => h u (List.mem_cons_of_mem v hu))

/-- C7: when every element of the list is an argument value of the same
formal and their combined location-index set exactly covers the formal's
full location-index range, the lowering yields the single formal lvalue;
when some element is not an argument value, or when the coverage is
incomplete (the indices staying within the formal's range, as their
contract requires), it yields one register-variable lvalue per input. -/
theorem c7_argument_aggregate_merge (g : Nat → ASTFormal × List Nat)
    (f : ASTFormal) (vconstvars : List VInitialRegisterValue) :
    (vconstvars ≠ [] →
     (∀ v ∈ vconstvars, v.is_argument_value = true) →
     (∀ v ∈ vconstvars, (g v.argument_index).1 = f) →
     combinedLocs g vconstvars = Finset.range f.arglocs.length →
     vinitregister_value_list_to_ast_lvals g vconstvars =
       [ASTLval.formalLval f]) ∧
    ((∃ v ∈ vconstvars, v.is_argument_value = false) →
     vinitregister_value_list_to_ast_lvals g vconstvars =
       vconstvars.map (fun v => ASTLval.registerVariable v.register)) ∧
    ((∀ v ∈ vconstvars, v.is_argument_value = true) →
     (∀ v ∈ vconstvars, (g v.argument_index).1 = f) →
     (∀ v ∈ vconstvars,
       (g v.argument_index).2.toFinset ⊆ Finset.range f.arglocs.length) →
     combinedLocs g vconstvars ≠ Finset.range f.arglocs.length →
     vinitregister_value_list_to_ast_lvals g vconstvars =
       vconstvars.map (fun v => ASTLval.registerVariable v.register)) := by
  refine ⟨?_, ?_, ?_⟩
  · intro hne hall hf hcov
    have hallb : vconstvars.all (fun v => v.is_argument_value) = true :=
      List.all_eq_true.mpr hall
    unfold vinitregister_value_list_to_ast_lvals
    rw [if_pos hallb]
    rcases List.exists_mem_of_ne_nil vconstvars hne with ⟨w, hw⟩
    have htrd : (vconstvars.foldl (viStep g) (∅, ∅, none)).2.2 = some f := by
      rw [viFold_trd]
      have hlast : ∃ u, vconstvars.getLast? = some u := by
        cases hget : vconstvars.getLast? with
        | none => exact absurd (List.getLast?_eq_none_iff.mp hget) hne
        | some u => exact ⟨u, rfl⟩
      rcases hlast with ⟨u, hu⟩
      have humem : u ∈ vconstvars := List.mem_of_mem_getLast? hu
      rw [hu]
      show some (g u.argument_index).1 = some f
      rw [hf u humem]
    have hfst : (vconstvars.foldl (viStep g) (∅, ∅, none)).1 = {f.argindex} := by
      rw [viFold_fst]
      rw [toFinset_map_const vconstvars _ f.argindex hne
        (fun v hv => by rw [hf v hv])]
      simp
    have hsnd : (vconstvars.foldl (viStep g) (∅, ∅, none)).2.1 =
        Finset.range f.arglocs.length := by
      rw [viFold_snd, hcov]
      simp
    simp only [htrd, hfst, hsnd, Finset.card_singleton, Finset.card_range]
    simp
  · intro ⟨v, hv, hvf⟩
    have hallb : vconstvars.all (fun v => v.is_argument_value) = false := by
      rw [Bool.eq_false_iff]
      intro hcon
      have := List.all_eq_true.mp hcon v hv
      rw [hvf] at this
      exact Bool.false_ne_true this
    unfold vinitregister_value_list_to_ast_lvals
    rw [if_neg (by simp [hallb])]
  · intro hall hf hsub hcov
    have hallb : vconstvars.all (fun v => v.is_argument_value) = true :=
      List.all_eq_true.mpr hall
    unfold vinitregister_value_list_to_ast_lvals
    rw [if_pos hallb]
    cases hne : vconstvars with
    | nil => simp
    | cons w ws =>
      rw [← hne]
      have hne' : vconstvars ≠ [] := by rw [hne]; simp
      have htrd : (vconstvars.foldl (viStep g) (∅, ∅, none)).2.2 = some f := by
        rw [viFold_trd]
        have hlast : ∃ u, vconstvars.getLast? = some u := by
          cases hget : vconstvars.getLast? with
          | none => exact absurd (List.getLast?_eq_none_iff.mp hget) hne'
          | some u => exact ⟨u, rfl⟩
        rcases hlast with ⟨u, hu⟩
        have humem : u ∈ vconstvars := List.mem_of_mem_getLast? hu
        rw [hu]
        show some (g u.argument_index).1 = some f
        rw [hf u humem]
      have hsnd : (vconstvars.foldl (viStep g) (∅, ∅, none)).2.1 =
          combinedLocs g vconstvars := by
        rw [viFold_snd]
        simp
      have hcard : (combinedLocs g vconstvars).card ≠ f.arglocs.length := by
        have hss : combinedLocs g vconstvars ⊂ Finset.range f.arglocs.length :=
          lt_of_le_of_ne (combinedLocs_subset g vconstvars _ hsub) hcov
        have := Finset.card_lt_card hss
        rw [Finset.card_range] at this
        omega
      simp only [htrd]
      by_cases hone : (vconstvars.foldl (viStep g) (∅, ∅, none)).1.card = 1
      · rw [if_pos hone, hsnd, if_neg hcard]
      · rw [if_neg hone]

/-- C6: lowering a stack variable at constant offset k with access size 2
yields exactly the two stack-slot lvalues at offsets k and k + 1 in that
order; any other access size yields the single stack-slot lvalue at
offset k. -/
theorem c6_stack_split (k size : Int) (ctype : Option String) :
    (size = 2 →
      stack_variable_to_ast_lvals (.constantValue k) size ctype =
        [ASTLval.stackVariable k ctype, ASTLval.stackVariable (k + 1) ctype]) ∧
    (size ≠ 2 →
      stack_variable_to_ast_lvals (.constantValue k) size ctype =
        [ASTLval.stackVariable k ctype]) := by
  constructor
  · intro h
    subst h
    rfl
  · intro h
    unfold stack_variable_to_ast_lvals
    rw [if_pos (show (VMemoryOffset.constantValue k).is_constant_value_offset
        = true from rfl), if_neg h]
    rfl

/-- C6 witness: size 2 at offset -8 splits into offsets -8 and -7; size 4
yields the single slot. -/
theorem c6_stack_split_witness :
    stack_variable_to_ast_lvals (.constantValue (-8)) 2 none =
      [ASTLval.stackVariable (-8) none, ASTLval.stackVariable (-7) none] ∧
    stack_variable_to_ast_lvals (.constantValue (-8)) 4 none =
      [ASTLval.stackVariable (-8) none] :=
  ⟨by
    have h := (c6_stack_split (-8) 2 none).1 rfl
    simpa using h,
   (c6_stack_split (-8) 4 none).2 (by decide)⟩

/-- A concrete get_formal_locindices map for closed evaluations: one
formal (argindex 0) with two argument locations; argument 0 covers
location index 0 and any other argument covers location index 1. -/
def c7g : Nat → ASTFormal × List Nat :=
  fun i => (⟨0, [10, 11]⟩, if i == 0 then [0] else [1])

/-- C7 witness: two registers jointly covering both locations of the
formal collapse to the single formal lvalue; dropping one register makes
the coverage incomplete and yields the individual register lvalue
instead. -/
theorem c7_argument_aggregate_merge_witness :
    vinitregister_value_list_to_ast_lvals c7g
      [⟨"a0", true, 0⟩, ⟨"a1", true, 1⟩] =
      [ASTLval.formalLval ⟨0, [10, 11]⟩] ∧
    vinitregister_value_list_to_ast_lvals c7g [⟨"a0", true, 0⟩] =
      [ASTLval.registerVariable "a0"] :=
  ⟨(c7_argument_aggregate_merge c7g ⟨0, [10, 11]⟩
      [⟨"a0", true, 0⟩, ⟨"a1", true, 1⟩]).1
      (by decide) (by decide) (by decide) (by decide),
   by
    have h := (c7_argument_aggregate_merge c7g ⟨0, [10, 11]⟩
      [⟨"a0", true, 0⟩]).2.2
      (by decide) (by decide) (by decide) (by decide)
    simpa using h⟩

/-! Abstract-simulation values (chb/simulate/SimSymbolicValue.py in the
sample, plus chb/simulation/SimValue.py as a collaborator): literals
(machine words, possibly undefined — simUndefinedDW is the undefined
literal), symbols, and global/stack/base addresses.  Offsets and values
are integers; word arithmetic is modulo 2^32 per the spec's numeric
semantics.  Symbolic values and addresses are defined; a literal carries
its defined flag. -/

inductive SimValue where
  | literal (defined : Bool) (value : Int)
  | symbol (name : String)
  | globalAddress (offsetvalue : Int)
  | stackAddress (offsetvalue : Int)
  | baseAddress (base : String) (offsetvalue : Int)
  deriving DecidableEq, Repr

namespace SimValue

def is_symbol : SimValue → Bool
  | .symbol _ => true
  | _ => false

def is_literal : SimValue → Bool
  | .literal _ _ => true
  | _ => false

def is_defined : SimValue → Bool
  | .literal d _ => d
  | _ => true

def is_undefined (v : SimValue) : Bool := ! v.is_defined

def is_address : SimValue → Bool
  | .globalAddress _ => true
  | .stackAddress _ => true
  | .baseAddress _ _ => true
  | _ => false

def is_global_address : SimValue → Bool
  | .globalAddress _ => true
  | _ => false

def is_stack_address : SimValue → Bool
  | .stackAddress _ => true
  | _ => false

def is_base_address : SimValue → Bool
  | .baseAddress _ _ => true
  | _ => false

def literal_value : SimValue → Int
  | .literal _ v => v
  | _ => 0

def symName : SimValue → String
  | .symbol n => n
  | _ => ""

def baseName : SimValue → String
  | .baseAddress b _ => b
  | _ => ""

def offsetvalue : SimValue → Int
  | .globalAddress o => o
  | .stackAddress o => o
  | .baseAddress _ o => o
  | _ => 0

/-- Modelled from the source's __str__ renderings (exact strings only
feed the raised expressions' messages). -/
def str : SimValue → String
  | .literal d v => if d then toString v else "?"
  | .symbol n => n
  | .globalAddress o => toString o
  | .stackAddress o => "stack:" ++ toString o
  | .baseAddress b o => b ++ ":" ++ toString o

/-- Source: SimAddress.add_offset — add to the address offset (the
offset is a double word, modulo 2^32). -/
def add_offset : SimValue → Int → SimValue
  | .globalAddress o, v => .globalAddress ((o + v) % 4294967296)
  | .stackAddress o, v => .stackAddress ((o + v) % 4294967296)
  | .baseAddress b o, v => .baseAddress b ((o + v) % 4294967296)
  | w, _ => w

/-- Modelled from the spec: SimLiteralValue.add — word addition modulo
2^32 when both operands are defined literals, undefined otherwise
(chb/simulation/SimValue.py is a collaborator outside the sample). -/
def lit_add (v1 v2 : SimValue) : SimValue :=
  match v1, v2 with
  | .literal true a, .literal true b => .literal true ((a + b) % 4294967296)
  | _, _ => .literal false 0

end SimValue

/-! The exception taxonomy of the simulate contract: the distinguishable
"symbolic expression encountered" signal (SU.CHBSymbolicExpression) and
the generic simulation error (SU.CHBSimError). -/

inductive SimErr where
  | symbolicExpression (expr : String)
  | simError (msg : String)
  deriving DecidableEq, Repr

def raisesSignal {α : Type} : Except SimErr α → Bool
  | .error _ => true
  | .ok _ => false

def raisesSymbolic {α : Type} : Except SimErr α → Bool
  | .error (SimErr.symbolicExpression _) => true
  | _ => false

def writesSymbol : Except SimErr SimValue → Bool
  | .ok (SimValue.symbol _) => true
  | _ => false

def concreteLiteralOk : Except SimErr SimValue → Bool
  | .ok (SimValue.literal true _) => true
  | _ => false

/-- Source: MIPSAddUnsigned.simulate (the value computation and the
raise/write decision; the state write, program-counter increment and
trace string are carried by the returned value).  A symbolic rt value
produces a fresh symbol written to the destination; a symbolic rs value
(with rt not symbolic) raises the symbolic-expression signal. -/
def MIPSAddUnsigned.simulate (src1val src2val : SimValue) :
    Except SimErr SimValue :=
  if src2val.is_symbol then
    .ok (SimValue.symbol (src2val.symName ++ ":add " ++ src1val.str))
  else if src1val.is_symbol || src2val.is_symbol then
    .error (SimErr.symbolicExpression (src1val.str ++ " + " ++ src2val.str))
  else if src2val.is_address && (src1val.is_literal && src1val.is_defined) then
    .ok (src2val.add_offset src1val.literal_value)
  else if src1val.is_literal && src1val.is_defined then
    .ok (SimValue.lit_add src1val src2val)
  else
    .ok (SimValue.literal false 0)

/-- Source: MIPSSubtractUnsigned.simulate — undefined operands give the
undefined double word; symbolic operands raise the symbolic-expression
signal; address/literal combinations subtract offsets modulo 2^32. -/
def MIPSSubtractUnsigned.simulate (src1val src2val : SimValue) :
    Except SimErr SimValue :=
  if src1val.is_undefined || src2val.is_undefined then
    .ok (SimValue.literal false 0)
  else if src1val.is_symbol || src2val.is_symbol then
    .error (SimErr.symbolicExpression (src1val.str ++ " - " ++ src2val.str))
  else if src1val.is_base_address && src2val.is_base_address then
    if src1val.baseName == src2val.baseName then
      .ok (SimValue.literal true
        ((src1val.offsetvalue - src2val.offsetvalue) % 4294967296))
    else
      .ok (SimValue.literal false 0)
  else if src1val.is_stack_address && src2val.is_stack_address then
    .ok (SimValue.literal true
      ((src1val.offsetvalue - src2val.offsetvalue) % 4294967296))
  else if src1val.is_stack_address && src2val.is_literal then
    .ok (src1val.add_offset (- src2val.literal_value))
  else if src1val.is_global_address && src2val.is_global_address then
    .ok (SimValue.literal true
      ((src1val.offsetvalue - src2val.offsetvalue) % 4294967296))
  else if src1val.is_global_address && src2val.is_literal then
    .ok (SimValue.literal true
      ((src1val.offsetvalue - src2val.literal_value) % 4294967296))
  else if src1val.is_literal && src2val.is_literal then
    .ok (SimValue.literal true
      ((src1val.literal_value - src2val.literal_value) % 4294967296))
  else
    .ok (SimValue.literal false 0)

/-- Modelled from the opcode's documented operation: 32-bit rotate right
with the count masked to its 5 least-significant bits
(SimLiteralValue.bitwise_ror lives in the out-of-scope
chb/simulation/SimValue.py). -/
def rotateRight32 (v c : Nat) : Nat :=
  ((v / 2 ^ (c % 32)) + (v % 2 ^ (c % 32)) * 2 ^ (32 - c % 32)) % 2 ^ 32

def msb32 (v : Nat) : Nat := v / 2 ^ 31 % 2

def msb232 (v : Nat) : Nat := v / 2 ^ 30 % 2

/-- The observable effect of one ROR step: the value written to the
destination and the optional CF/OF flag updates. -/
structure RorEffect where
  result : SimValue
  cf : Option Bool
  of : Option Bool
  deriving DecidableEq, Repr

/-- Source: X86RotateRight.simulate — on two literal operands computes
the rotate and the CF (count > 0) and OF (count = 1) updates; on any
non-literal operand raises CHBSimError ("Bitwise_ror not yet implemented
for ..."). -/
def X86RotateRight.simulate (dstval srcval : SimValue) :
    Except SimErr RorEffect :=
  if dstval.is_literal && srcval.is_literal then
    if srcval.literal_value > 0 then
      if srcval.literal_value = 1 then
        .ok ⟨SimValue.literal true
            (rotateRight32 dstval.literal_value.toNat srcval.literal_value.toNat),
          some (msb32 (rotateRight32 dstval.literal_value.toNat
            srcval.literal_value.toNat) == 1),
          some ((msb32 (rotateRight32 dstval.literal_value.toNat
              srcval.literal_value.toNat) ^^^
            msb232 (rotateRight32 dstval.literal_value.toNat
              srcval.literal_value.toNat)) == 1)⟩
      else
        .ok ⟨SimValue.literal true
            (rotateRight32 dstval.literal_value.toNat srcval.literal_value.toNat),
          some (msb32 (rotateRight32 dstval.literal_value.toNat
            srcval.literal_value.toNat) == 1),
          none⟩
    else
      .ok ⟨SimValue.literal true
          (rotateRight32 dstval.literal_value.toNat srcval.literal_value.toNat),
        none, none⟩
  else
    .error (SimErr.simError ("Bitwise_ror not yet implemented for " ++
      dstval.str ++ ", " ++ srcval.str))

/-- C8 counterexample: in MIPSAddUnsigned.simulate a symbolic rt operand
does NOT raise the symbolic-expression signal — the simulate step
completes normally, writing a fresh symbol to the destination. -/
theorem c8_simulate_symbolic_cex :
    SimValue.is_symbol (SimValue.symbol "x") = true ∧
    raisesSignal (MIPSAddUnsigned.simulate
      (SimValue.literal true 5) (SimValue.symbol "x")) = false ∧
    MIPSAddUnsigned.simulate (SimValue.literal true 5) (SimValue.symbol "x") =
      .ok (SimValue.symbol "x:add 5") := by
  refine ⟨rfl, rfl, rfl⟩

/-- C8 (amended): no simulate step silently writes a concrete (defined
literal) value when an operand is symbolic.  MIPSSubtractUnsigned raises
the symbolic-expression signal whenever a defined operand pair contains a
symbol; MIPSAddUnsigned raises it when rs is symbolic and rt is not, but
a symbolic rt instead yields a fresh symbolic value written to the
destination; X86RotateRight raises a (generic) simulation error on any
non-literal operand. -/
theorem c8_simulate_symbolic_amended (v1 v2 d s : SimValue) :
    ((v1.is_symbol = true ∨ v2.is_symbol = true) →
      v1.is_undefined = false → v2.is_undefined = false →
      raisesSymbolic (MIPSSubtractUnsigned.simulate v1 v2) = true) ∧
    (v1.is_symbol = true → v2.is_symbol = false →
      raisesSymbolic (MIPSAddUnsigned.simulate v1 v2) = true) ∧
    (v2.is_symbol = true → writesSymbol (MIPSAddUnsigned.simulate v1 v2) = true) ∧
    ((d.is_literal && s.is_literal) = false →
      raisesSignal (X86RotateRight.simulate d s) = true) ∧
    ((v1.is_symbol = true ∨ v2.is_symbol = true) →
      concreteLiteralOk (MIPSAddUnsigned.simulate v1 v2) = false ∧
      concreteLiteralOk (MIPSSubtractUnsigned.simulate v1 v2) = false) := by
  refine ⟨?_, ?_, ?_, ?_, ?_⟩
  · intro hsym h1 h2
    cases v1 <;> cases v2 <;>
      simp_all [MIPSSubtractUnsigned.simulate, raisesSymbolic,
        SimValue.is_symbol, SimValue.is_undefined, SimValue.is_defined,
        SimValue.is_literal, SimValue.is_base_address,
        SimValue.is_stack_address, SimValue.is_global_address]
  · intro h1 h2
    cases v1 <;> cases v2 <;>
      simp_all [MIPSAddUnsigned.simulate, raisesSymbolic,
        SimValue.is_symbol]
  · intro h2
    cases v2 <;>
      simp_all [MIPSAddUnsigned.simulate, writesSymbol, SimValue.is_symbol]
  · intro h
    cases d <;> cases s <;>
      simp_all [X86RotateRight.simulate, raisesSignal, SimValue.is_literal]
  · intro hsym
    constructor
    · cases v1 <;> cases v2 <;>
        simp_all [MIPSAddUnsigned.simulate, concreteLiteralOk,
          SimValue.is_symbol, SimValue.is_literal, SimValue.is_defined,
          SimValue.is_address, SimValue.add_offset, SimValue.lit_add]
    · cases v1 <;> cases v2 <;>
        simp_all [MIPSSubtractUnsigned.simulate, concreteLiteralOk,
          SimValue.is_symbol, SimValue.is_undefined, SimValue.is_defined,
          SimValue.is_literal, SimValue.is_base_address,
          SimValue.is_stack_address, SimValue.is_global_address] <;>
        split_ifs <;> simp_all
  
/-- C8 witness: the amended statement applied to concrete values — subu
raises on a symbol operand, addu raises when rs is the symbol, addu
writes a symbol when rt is the symbol, and ror errors on a symbolic
destination. -/
theorem c8_simulate_symbolic_amended_witness :
    raisesSymbolic (MIPSSubtractUnsigned.simulate
      (SimValue.symbol "x") (SimValue.literal true 3)) = true ∧
    raisesSymbolic (MIPSAddUnsigned.simulate
      (SimValue.symbol "x") (SimValue.literal true 3)) = true ∧
    writesSymbol (MIPSAddUnsigned.simulate
      (SimValue.literal true 3) (SimValue.symbol "x")) = true ∧
    raisesSignal (X86RotateRight.simulate
      (SimValue.symbol "x") (SimValue.literal true 1)) = true :=
  ⟨((c8_simulate_symbolic_amended (SimValue.symbol "x") (SimValue.literal true 3)
      (SimValue.symbol "x") (SimValue.literal true 1)).1
      (Or.inl rfl) rfl rfl),
   ((c8_simulate_symbolic_amended (SimValue.symbol "x") (SimValue.literal true 3)
      (SimValue.symbol "x") (SimValue.literal true 1)).2.1 rfl rfl),
   ((c8_simulate_symbolic_amended (SimValue.literal true 3) (SimValue.symbol "x")
      (SimValue.symbol "x") (SimValue.literal true 1)).2.2.1 rfl),
   ((c8_simulate_symbolic_amended (SimValue.literal true 3) (SimValue.symbol "x")
      (SimValue.symbol "x") (SimValue.literal true 1)).2.2.2.1 rfl)⟩
